import Mathlib

/-!
Verification of the apkregress regression-test orchestrator.

Shallow embedding of:
- the per-trial executor `MelangeClient.TestPackage` (runner.go),
- the scheduler goroutine body of `RegressionTestRunner.Run` (part_002),
- the progress tracker `updateProgress` (part_002),
- the classifier `analyzeResults` (part_002),
- the reverse-dependency collector `ApkraneClient.GetReverseDependencies`
  (apkrane.go).
-/

namespace Apkregress

/-- Outcome of one `TestPackage` invocation: the error value it returns.
`ok` is a nil error, `failed` any other error (nonzero process exit,
start failure, setup failure), `hungT` is `ErrTestHung`, `yamlNotFound`
is `ErrPackageYAMLNotFound`. -/
inductive TrialOutcome
  | ok
  | failed
  | hungT
  | yamlNotFound
deriving DecidableEq, Repr

/-- Go struct `TestResult` (part_002 lines 20-27): the `Error` field is
carried in Go but only consulted through the three boolean projections
below, so it is dropped here. -/
structure TestResult where
  pkg : String
  withRepo : Bool
  success : Bool
  hung : Bool
  skipped : Bool
deriving DecidableEq, Repr

/-- The `TestResult` literal built by `Run` (part_002 lines 174-181 and
194-201): `Success: err == nil`, `Hung: errors.Is(err, ErrTestHung)`,
`Skipped: errors.Is(err, ErrPackageYAMLNotFound)`. -/
def mkResult (p : String) (withRepo : Bool) (o : TrialOutcome) : TestResult :=
  { pkg := p
    withRepo := withRepo
    success := decide (o = .ok)
    hung := decide (o = .hungT)
    skipped := decide (o = .yamlNotFound) }

/-! ## Classifier (`analyzeResults`, part_002 lines 293-412)

`analyzeResults` first groups the streamed results into
`map[string]map[bool]TestResult`; we model the grouped form directly as a
list of `(package, withRepo result?, withoutRepo result?)` entries and the
per-package loop body as a state transformer over the accumulated lists
and counters. -/

/-- The branch of the per-package cascade of `analyzeResults`
(part_002 lines 311-369) that a package falls into, in source order. -/
inductive UnitClass
  | incomplete
  | skipped
  | hungOverlay (baselineAlsoHung : Bool)
  | hungBaselineOnly
  | success
  | regression
  | bothFail
  | incompleteNoBaseline
  | unclassified
deriving DecidableEq, Repr

/-- `hasWithoutRepo && withoutRepoResult.Hung` (part_002 lines 334, 340). -/
def baselineHung : Option TestResult → Bool
  | some o => o.hung
  | none => false

/-- The guard cascade of part_002 lines 311-369, in source order:
missing with-repo result, `Skipped`, with-repo `Hung` (recording whether
the without-repo result also hung), without-repo-only `Hung`, then the
success / regression / both-fail / incomplete arms keyed on
`withRepoResult.Success` and `hasWithoutRepo`.  A with-repo success that
nevertheless has a without-repo result matches no arm (`unclassified`). -/
def classifyUnit : Option TestResult → Option TestResult → UnitClass
  | none, _ => .incomplete
  | some w, wo =>
    if w.skipped then .skipped
    else if w.hung then .hungOverlay (baselineHung wo)
    else if baselineHung wo then .hungBaselineOnly
    else
      match wo with
      | none => if w.success then .success else .incompleteNoBaseline
      | some o => if !w.success then (if o.success then .regression else .bothFail) else .unclassified

/-- The lists and counters accumulated by `analyzeResults`
(part_002 lines 303-308).  A hung-test entry `"pkg (with repo)"` resp.
`"pkg (without repo)"` is modelled as the pair `(pkg, true)` resp.
`(pkg, false)`. -/
structure AnalyzeState where
  regressions : List String
  hungTests : List (String × Bool)
  successfulPackages : List String
  failedPackages : List String
  skippedPackages : List String
  successCount : Nat
  failureCount : Nat
  skippedCount : Nat
deriving DecidableEq, Repr

def initState : AnalyzeState :=
  { regressions := [], hungTests := [], successfulPackages := [], failedPackages := []
    skippedPackages := [], successCount := 0, failureCount := 0, skippedCount := 0 }

/-- One iteration of the per-package loop of `analyzeResults`
(part_002 lines 311-369): the appends and counter bumps each branch
performs. -/
def processUnit (s : AnalyzeState) (pkg : String) (wr wo : Option TestResult) : AnalyzeState :=
  match classifyUnit wr wo with
  | .incomplete => s
  | .skipped =>
      { s with skippedCount := s.skippedCount + 1
               skippedPackages := s.skippedPackages ++ [pkg] }
  | .hungOverlay b =>
      { s with hungTests := s.hungTests ++ [(pkg, true)] ++ (if b then [(pkg, false)] else []) }
  | .hungBaselineOnly =>
      { s with hungTests := s.hungTests ++ [(pkg, false)] }
  | .success =>
      { s with successCount := s.successCount + 1
               successfulPackages := s.successfulPackages ++ [pkg] }
  | .regression =>
      { s with regressions := s.regressions ++ [pkg] }
  | .bothFail =>
      { s with failureCount := s.failureCount + 1
               failedPackages := s.failedPackages ++ [pkg] }
  | .incompleteNoBaseline => s
  | .unclassified => s

/-- One grouped entry of `packageResults`: package name, with-repo result
(if any), without-repo result (if any). -/
abbrev GroupedUnit := String × Option TestResult × Option TestResult

def analyzeFrom (s : AnalyzeState) : List GroupedUnit → AnalyzeState
  | [] => s
  | u :: us => analyzeFrom (processUnit s u.1 u.2.1 u.2.2) us

/-- The whole classification loop of `analyzeResults` run over the grouped
results. -/
def analyzeUnits (us : List GroupedUnit) : AnalyzeState :=
  analyzeFrom initState us

/-- The error-return of `analyzeResults` (part_002 lines 403-411):
`found N regressions` when regressions exist, else `found N hung tests`
when hung entries exist, else nil. -/
def analyzeError (s : AnalyzeState) : Option String :=
  if s.regressions.length > 0 then
    some ("found " ++ toString s.regressions.length ++ " regressions")
  else if s.hungTests.length > 0 then
    some ("found " ++ toString s.hungTests.length ++ " hung tests")
  else
    none

/-- `analyzeResults` end to end on grouped input: classify every package,
then derive the error return. -/
def analyzeResults (us : List GroupedUnit) : Option String :=
  analyzeError (analyzeUnits us)

/-- Whether a branch appends to `regressions`. -/
def isRegression : UnitClass → Bool
  | .regression => true
  | _ => false

/-- Whether a branch appends at least one `hungTests` entry. -/
def isHungClass : UnitClass → Bool
  | .hungOverlay _ => true
  | .hungBaselineOnly => true
  | _ => false

/-- The `hungTests` entries a branch appends for package `pkg`. -/
def hungEntries (pkg : String) : UnitClass → List (String × Bool)
  | .hungOverlay b => [(pkg, true)] ++ (if b then [(pkg, false)] else [])
  | .hungBaselineOnly => [(pkg, false)]
  | _ => []

/-- The regression names contributed by a grouped input list, in order. -/
def regList : List GroupedUnit → List String
  | [] => []
  | u :: us => (if isRegression (classifyUnit u.2.1 u.2.2) then [u.1] else []) ++ regList us

/-- The hung-test entries contributed by a grouped input list, in order. -/
def hungList : List GroupedUnit → List (String × Bool)
  | [] => []
  | u :: us => hungEntries u.1 (classifyUnit u.2.1 u.2.2) ++ hungList us

lemma processUnit_regressions (s : AnalyzeState) (pkg : String) (wr wo : Option TestResult) :
    (processUnit s pkg wr wo).regressions =
      s.regressions ++ (if isRegression (classifyUnit wr wo) then [pkg] else []) := by
  cases h : classifyUnit wr wo <;> simp [processUnit, h, isRegression]

lemma processUnit_hungTests (s : AnalyzeState) (pkg : String) (wr wo : Option TestResult) :
    (processUnit s pkg wr wo).hungTests =
      s.hungTests ++ hungEntries pkg (classifyUnit wr wo) := by
  cases h : classifyUnit wr wo <;> simp [processUnit, h, hungEntries]

lemma analyzeFrom_regressions (us : List GroupedUnit) :
    ∀ s : AnalyzeState, (analyzeFrom s us).regressions = s.regressions ++ regList us := by
  induction us with
  | nil => intro s; simp [analyzeFrom, regList]
  | cons u us ih =>
      intro s
      simp [analyzeFrom, regList, ih, processUnit_regressions]

lemma analyzeFrom_hungTests (us : List GroupedUnit) :
    ∀ s : AnalyzeState, (analyzeFrom s us).hungTests = s.hungTests ++ hungList us := by
  induction us with
  | nil => intro s; simp [analyzeFrom, hungList]
  | cons u us ih =>
      intro s
      simp [analyzeFrom, hungList, ih, processUnit_hungTests]

lemma hungEntries_ne_nil (pkg : String) (c : UnitClass) :
    hungEntries pkg c ≠ [] ↔ isHungClass c = true := by
  cases c <;> simp [hungEntries, isHungClass]

lemma regList_ne_nil (us : List GroupedUnit) :
    regList us ≠ [] ↔ ∃ u ∈ us, isRegression (classifyUnit u.2.1 u.2.2) = true := by
  induction us with
  | nil => simp [regList]
  | cons u us ih =>
      by_cases h : isRegression (classifyUnit u.2.1 u.2.2) = true
      · simp [regList, h]
      · simp [regList, h, ih]

lemma hungList_ne_nil (us : List GroupedUnit) :
    hungList us ≠ [] ↔ ∃ u ∈ us, isHungClass (classifyUnit u.2.1 u.2.2) = true := by
  induction us with
  | nil => simp [hungList]
  | cons u us ih =>
      by_cases h : isHungClass (classifyUnit u.2.1 u.2.2) = true
      · have : hungEntries u.1 (classifyUnit u.2.1 u.2.2) ≠ [] :=
          (hungEntries_ne_nil u.1 _).mpr h
        simp only [hungList]
        constructor
        · intro _; exact ⟨u, List.mem_cons_self u us, h⟩
        · intro _
          intro hcontra
          exact this (List.append_eq_nil.mp hcontra).1
      · have : hungEntries u.1 (classifyUnit u.2.1 u.2.2) = [] := by
          by_contra hne
          exact h ((hungEntries_ne_nil u.1 _).mp hne)
        simp [hungList, this, ih, h]

lemma mem_regList_of_mem {us : List GroupedUnit} {u : GroupedUnit}
    (hu : u ∈ us) (hr : isRegression (classifyUnit u.2.1 u.2.2) = true) :
    u.1 ∈ regList us := by
  induction us with
  | nil => cases hu
  | cons v us ih =>
      rcases List.mem_cons.mp hu with rfl | hu'
      · simp [regList, hr]
      · simp only [regList, List.mem_append]
        exact Or.inr (ih hu')

/-! ## Executor (`MelangeClient.TestPackage`, runner.go lines 225-316)

The external world (filesystem, process) is abstracted into an `ExecEnv`
oracle; `testPackage` follows the Go control flow over it step by step and
records the observable side effects of the trial. -/

/-- Oracle for one `TestPackage` call: whether the package YAML exists,
whether `os.MkdirTemp` and `os.Create` succeed, whether `cmd.Start`
succeeds, and the process behaviour (exits before the timeout or not,
and with which status). -/
structure ExecEnv where
  yamlExists : Bool
  mkTempOk : Bool
  tempDir : String
  createLogOk : Bool
  startOk : Bool
  exitsInTime : Bool
  exitZero : Bool
deriving DecidableEq, Repr

/-- The external invocation built by `TestPackage`: program, make target,
working directory, and the environment entries appended to
`os.Environ()`. -/
structure CmdSpec where
  prog : String
  target : String
  dir : String
  extraEnv : List String
deriving DecidableEq, Repr

/-- `extraOpts := fmt.Sprintf("--repository-append %s", apkRepo)`
(runner.go line 261). -/
def melangeExtraOpts (apkRepo : String) : String :=
  "--repository-append " ++ apkRepo

/-- Command construction of runner.go lines 256-275: both modes run
`make test/<pkg>` in `repoPath`; with-repo mode appends
`MELANGE_EXTRA_OPTS` and `TMPDIR` to the environment, without-repo mode
appends only `TMPDIR`. -/
def buildCmd (repoPath tempDir apkRepo : String) (withRepo : Bool) (packageName : String) :
    CmdSpec :=
  if withRepo then
    { prog := "make", target := "test/" ++ packageName, dir := repoPath
      extraEnv := ["MELANGE_EXTRA_OPTS=" ++ melangeExtraOpts apkRepo, "TMPDIR=" ++ tempDir] }
  else
    { prog := "make", target := "test/" ++ packageName, dir := repoPath
      extraEnv := ["TMPDIR=" ++ tempDir] }

/-- Observable side effects of one `TestPackage` call. -/
structure Effects where
  tempDirCreated : Bool
  tempDirRemoved : Bool
  logCreated : Bool
  logClosed : Bool
  spawnAttempted : Bool
  cmdBuilt : Option CmdSpec
  processKilled : Bool
  waitDrained : Bool
  timeoutMarkerWritten : Bool
deriving DecidableEq, Repr

def noEffects : Effects :=
  { tempDirCreated := false, tempDirRemoved := false, logCreated := false, logClosed := false
    spawnAttempted := false, cmdBuilt := none, processKilled := false, waitDrained := false
    timeoutMarkerWritten := false }

/-- `TestPackage` (runner.go lines 225-316) over the oracle:
YAML existence check first (return `ErrPackageYAMLNotFound` before any
allocation), then `MkdirTemp` (with deferred removal), log creation
(with deferred close), command construction, `cmd.Start`, and the select
between `cmd.Wait` on the done channel and the timeout context; on
timeout the process is killed, the done channel drained, the
killed-after-timeout marker appended to the log, and `ErrTestHung`
returned. -/
def testPackage (env : ExecEnv) (repoPath apkRepo packageName : String) (withRepo : Bool) :
    TrialOutcome × Effects :=
  if !env.yamlExists then
    (.yamlNotFound, noEffects)
  else if !env.mkTempOk then
    (.failed, noEffects)
  else if !env.createLogOk then
    (.failed, { noEffects with tempDirCreated := true, tempDirRemoved := true })
  else
    let cmd := buildCmd repoPath env.tempDir apkRepo withRepo packageName
    if !env.startOk then
      (.failed,
       { noEffects with tempDirCreated := true, tempDirRemoved := true
                        logCreated := true, logClosed := true
                        spawnAttempted := true, cmdBuilt := some cmd })
    else if env.exitsInTime then
      (if env.exitZero then .ok else .failed,
       { tempDirCreated := true, tempDirRemoved := true, logCreated := true, logClosed := true
         spawnAttempted := true, cmdBuilt := some cmd, processKilled := false, waitDrained := true
         timeoutMarkerWritten := false })
    else
      (.hungT,
       { tempDirCreated := true, tempDirRemoved := true, logCreated := true, logClosed := true
         spawnAttempted := true, cmdBuilt := some cmd, processKilled := true, waitDrained := true
         timeoutMarkerWritten := true })

/-! ## Scheduler goroutine body (`Run`, part_002 lines 164-206) -/

/-- What one scheduler task does for one package: the results it sends on
the channel, how many times it invoked `TestPackage` in each mode, and
how many times it called `updateProgress`. -/
structure UnitRun where
  emitted : List TestResult
  overlayRuns : Nat
  baselineRuns : Nat
  progressCalls : Nat
deriving DecidableEq, Repr

/-- The goroutine body of `Run` (part_002 lines 166-206): run the
with-repo trial and emit its result; if it neither succeeded nor was
skipped, run the without-repo trial (dropping its result only in the
defensive YAML-not-found case) and emit it; finally advance progress
once. -/
def runUnit (envOverlay envBaseline : ExecEnv) (repoPath apkRepo packageName : String) :
    UnitRun :=
  let overlayErr := (testPackage envOverlay repoPath apkRepo packageName true).1
  let withRepoResult := mkResult packageName true overlayErr
  if !withRepoResult.success && !withRepoResult.skipped then
    let baselineErr := (testPackage envBaseline repoPath apkRepo packageName false).1
    if baselineErr = .yamlNotFound then
      { emitted := [withRepoResult], overlayRuns := 1, baselineRuns := 1, progressCalls := 1 }
    else
      { emitted := [withRepoResult, mkResult packageName false baselineErr]
        overlayRuns := 1, baselineRuns := 1, progressCalls := 1 }
  else
    { emitted := [withRepoResult], overlayRuns := 1, baselineRuns := 0, progressCalls := 1 }

/-! ## Progress tracker (`updateProgress`, part_002 lines 46-55)

Two views of the same source lines: `updateProgress` is the load /
guard / atomic-add body executed atomically (no interleaving between the
load and the add), and `progressStep` is the same body split at its two
shared-memory accesses so that concurrent calls may interleave. -/

/-- `updateProgress` executed without interleaving: load `completedTests`,
no-op when it already reached `totalTests`, otherwise add one. -/
def updateProgress (total completed : Nat) : Nat :=
  if completed ≥ total then completed else completed + 1

/-- Program counter of one in-flight `updateProgress` call: about to load
`completedTests`, about to run the guard and `atomic.AddInt64` with the
loaded value `saved`, or finished. -/
inductive ThreadPC
  | toRead
  | toInc (saved : Nat)
  | doneT
deriving DecidableEq, Repr

/-- Shared state: the `completedTests` counter plus the program counter of
every concurrent `updateProgress` call. -/
structure ProgressState where
  completed : Nat
  threads : List ThreadPC
deriving DecidableEq, Repr

/-- One shared-memory step of thread `i`: either its
`atomic.LoadInt64(&r.completedTests)` or its guarded
`atomic.AddInt64(&r.completedTests, 1)` using the previously loaded
value. -/
def progressStep (total : Nat) (st : ProgressState) (i : Nat) : ProgressState :=
  match st.threads[i]? with
  | none => st
  | some .toRead => { st with threads := st.threads.set i (.toInc st.completed) }
  | some (.toInc saved) =>
      if saved ≥ total then { st with threads := st.threads.set i .doneT }
      else { completed := st.completed + 1, threads := st.threads.set i .doneT }
  | some .doneT => st

/-- Run a schedule (a list of thread indices) over the shared state. -/
def runProgress (total : Nat) : List Nat → ProgressState → ProgressState
  | [], st => st
  | i :: sched, st => runProgress total sched (progressStep total st i)

/-! ## Reverse dependencies (`GetReverseDependencies`, apkrane.go lines 111-136)

The parsed `apkrane ls` output is a list of packages, each with an
`Origin` string and `Dependencies` (a possibly-nil slice, modelled as
`Option (List String)`).  The origin set `map[string]bool` is modelled as
a duplicate-free list. -/

/-- Parsed `apkrane` package record (apkrane.go lines 20-23). -/
structure Package where
  origin : String
  dependencies : Option (List String)
deriving DecidableEq, Repr

/-- `strings.Contains(dep, packageName)`: the queried name occurs inside
the dependency string as a contiguous substring. -/
def containsStr (dep packageName : String) : Bool :=
  decide (packageName.toList <:+: dep.toList)

/-- `originSet[o] = true` on a set modelled as a duplicate-free list. -/
def insertOrigin (o : String) (set : List String) : List String :=
  if o ∈ set then set else o :: set

/-- The inner loop of apkrane.go lines 117-123: for each dependency that
contains the queried name, record the package origin when it is
non-empty. -/
def addDeps (packageName origin : String) : List String → List String → List String
  | set, [] => set
  | set, dep :: deps =>
      addDeps packageName origin
        (if containsStr dep packageName then
          (if origin = "" then set else insertOrigin origin set)
         else set) deps

/-- The outer loop of apkrane.go lines 112-124: packages with a nil
dependency slice are skipped. -/
def collectOrigins (packageName : String) : List String → List Package → List String
  | set, [] => set
  | set, pkg :: pkgs =>
      collectOrigins packageName
        (match pkg.dependencies with
         | none => set
         | some deps => addDeps packageName pkg.origin set deps) pkgs

/-- Byte-order comparison of `sort.Strings`, modelled as lexicographic
order on the character lists. -/
def strLe (a b : String) : Prop := a.toList ≤ b.toList

instance : DecidableRel strLe := fun a b => inferInstanceAs (Decidable (a.toList ≤ b.toList))

instance : IsTotal String strLe := ⟨fun a b => le_total a.toList b.toList⟩

instance : IsTrans String strLe := ⟨fun _ _ _ h1 h2 => le_trans h1 h2⟩

/-- `GetReverseDependencies` (apkrane.go lines 111-136) after parsing:
collect the origin set over all packages, then `sort.Strings`. -/
def getReverseDependencies (packageName : String) (packages : List Package) : List String :=
  List.insertionSort strLe (collectOrigins packageName [] packages)

lemma mem_insertOrigin {x o : String} {set : List String} :
    x ∈ insertOrigin o set ↔ x = o ∨ x ∈ set := by
  unfold insertOrigin
  by_cases h : o ∈ set
  · simp only [if_pos h]
    constructor
    · exact Or.inr
    · rintro (rfl | hx)
      · exact h
      · exact hx
  · simp [if_neg h]

lemma nodup_insertOrigin {o : String} {set : List String} (h : set.Nodup) :
    (insertOrigin o set).Nodup := by
  unfold insertOrigin
  by_cases ho : o ∈ set
  · simpa [if_pos ho]
  · simpa [if_neg ho, List.nodup_cons] using ⟨ho, h⟩

lemma mem_addDeps {packageName origin x : String} :
    ∀ {deps set : List String},
      x ∈ addDeps packageName origin set deps ↔
        x ∈ set ∨ (x = origin ∧ origin ≠ "" ∧ ∃ d ∈ deps, containsStr d packageName = true) := by
  intro deps
  induction deps with
  | nil => intro set; simp [addDeps]
  | cons d ds ih =>
      intro set
      by_cases hc : containsStr d packageName = true
      · by_cases ho : origin = ""
        · subst ho
          simp [addDeps, hc, ih]
        · simp only [addDeps, if_pos hc, if_neg ho, ih, mem_insertOrigin]
          constructor
          · rintro ((rfl | hx) | ⟨rfl, -, d', hd', hc'⟩)
            · exact Or.inr ⟨rfl, ho, d, List.mem_cons_self d ds, hc⟩
            · exact Or.inl hx
            · exact Or.inr ⟨rfl, ho, d', List.mem_cons_of_mem d hd', hc'⟩
          · rintro (hx | ⟨rfl, -, d', hd', hc'⟩)
            · exact Or.inl (Or.inr hx)
            · exact Or.inl (Or.inl rfl)
      · simp only [addDeps, if_neg hc, ih]
        constructor
        · rintro (hx | ⟨rfl, hne, d', hd', hc'⟩)
          · exact Or.inl hx
          · exact Or.inr ⟨rfl, hne, d', List.mem_cons_of_mem d hd', hc'⟩
        · rintro (hx | ⟨rfl, hne, d', hd', hc'⟩)
          · exact Or.inl hx
          · rcases List.mem_cons.mp hd' with rfl | hd''
            · exact absurd hc' hc
            · exact Or.inr ⟨rfl, hne, d', hd'', hc'⟩

lemma nodup_addDeps {packageName origin : String} :
    ∀ {deps set : List String}, set.Nodup → (addDeps packageName origin set deps).Nodup := by
  intro deps
  induction deps with
  | nil => intro set h; simpa [addDeps]
  | cons d ds ih =>
      intro set h
      simp only [addDeps]
      apply ih
      by_cases hc : containsStr d packageName = true
      · by_cases ho : origin = ""
        · simpa [hc, ho]
        · simpa [hc, ho] using nodup_insertOrigin h
      · simpa [hc]

lemma mem_collectOrigins {packageName x : String} :
    ∀ {pkgs : List Package} {set : List String},
      x ∈ collectOrigins packageName set pkgs ↔
        x ∈ set ∨ ∃ p ∈ pkgs, p.origin = x ∧ x ≠ "" ∧
          ∃ deps, p.dependencies = some deps ∧ ∃ d ∈ deps, containsStr d packageName = true := by
  intro pkgs
  induction pkgs with
  | nil => intro set; simp [collectOrigins]
  | cons p ps ih =>
      intro set
      cases hd : p.dependencies with
      | none =>
          simp only [collectOrigins, hd, ih]
          constructor
          · rintro (hx | ⟨q, hq, hrest⟩)
            · exact Or.inl hx
            · exact Or.inr ⟨q, List.mem_cons_of_mem p hq, hrest⟩
          · rintro (hx | ⟨q, hq, horig, hne, deps, hdeps, hwit⟩)
            · exact Or.inl hx
            · rcases List.mem_cons.mp hq with rfl | hq'
              · rw [hd] at hdeps; cases hdeps
              · exact Or.inr ⟨q, hq', horig, hne, deps, hdeps, hwit⟩
      | some deps =>
          simp only [collectOrigins, hd, ih, mem_addDeps]
          constructor
          · rintro ((hx | ⟨rfl, hne, d, hdm, hc⟩) | ⟨q, hq, hrest⟩)
            · exact Or.inl hx
            · exact Or.inr ⟨p, List.mem_cons_self p ps, rfl, hne, deps, hd, d, hdm, hc⟩
            · exact Or.inr ⟨q, List.mem_cons_of_mem p hq, hrest⟩
          · rintro (hx | ⟨q, hq, horig, hne, deps', hdeps', d, hdm, hc⟩)
            · exact Or.inl (Or.inl hx)
            · rcases List.mem_cons.mp hq with rfl | hq'
              · rw [hd] at hdeps'
                cases hdeps'
                exact Or.inl (Or.inr ⟨horig.symm, fun he => hne (horig.symm.trans he), d, hdm, hc⟩)
              · exact Or.inr ⟨q, hq', horig, hne, deps', hdeps', d, hdm, hc⟩

lemma nodup_collectOrigins {packageName : String} :
    ∀ {pkgs : List Package} {set : List String},
      set.Nodup → (collectOrigins packageName set pkgs).Nodup := by
  intro pkgs
  induction pkgs with
  | nil => intro set h; simpa [collectOrigins]
  | cons p ps ih =>
      intro set h
      simp only [collectOrigins]
      apply ih
      cases hd : p.dependencies with
      | none => simpa
      | some deps => exact nodup_addDeps h

/-! ## Claim theorems -/

/-- C1: for a unit whose with-repo result is a plain failure and that has a
without-repo result, `analyzeResults` classifies it as a regression
(appending it to `regressions`) when the without-repo result succeeded,
and as a failure (bumping `failureCount` and appending to
`failedPackages`) when the without-repo result also failed; a unit with
such a regression pair in the grouped input ends up in the final
`regressions` list. -/
theorem overlayFailure_regression_and_failure (s : AnalyzeState) (p : String) :
    classifyUnit (some (mkResult p true .failed)) (some (mkResult p false .ok)) = .regression ∧
    processUnit s p (some (mkResult p true .failed)) (some (mkResult p false .ok)) =
      { s with regressions := s.regressions ++ [p] } ∧
    classifyUnit (some (mkResult p true .failed)) (some (mkResult p false .failed)) = .bothFail ∧
    processUnit s p (some (mkResult p true .failed)) (some (mkResult p false .failed)) =
      { s with failureCount := s.failureCount + 1
               failedPackages := s.failedPackages ++ [p] } ∧
    ∀ us : List GroupedUnit,
      (p, some (mkResult p true .failed), some (mkResult p false .ok)) ∈ us →
      p ∈ (analyzeUnits us).regressions := by
  refine ⟨rfl, rfl, rfl, rfl, ?_⟩
  intro us hmem
  have h := @mem_regList_of_mem us _ hmem rfl
  rw [analyzeUnits, analyzeFrom_regressions]
  simpa [initState] using h

theorem overlayFailure_regression_and_failure_witness :
    "mypkg" ∈ (analyzeUnits
      [("mypkg", some (mkResult "mypkg" true .failed), some (mkResult "mypkg" false .ok))]).regressions :=
  (overlayFailure_regression_and_failure initState "mypkg").2.2.2.2
    [("mypkg", some (mkResult "mypkg" true .failed), some (mkResult "mypkg" false .ok))]
    (by decide)

/-- C2 (counterexample): the claim says no baseline trial runs when the
overlay outcome is Hung, but with an environment whose process never
exits in time the overlay outcome is Hung and `Run` still invokes the
without-repo `TestPackage`. -/
theorem baseline_after_hung_overlay :
    (testPackage ⟨true, true, "/tmp/x", true, true, false, false⟩ "repo" "apk" "p" true).1 = .hungT ∧
    (runUnit ⟨true, true, "/tmp/x", true, true, false, false⟩
      ⟨true, true, "/tmp/x", true, true, false, false⟩ "repo" "apk" "p").baselineRuns = 1 := by
  decide

/-- C2 (amended): at most one baseline trial runs per unit, and one runs
iff the overlay outcome was a plain failure or a hang, i.e. neither
success nor skipped. -/
theorem baselineRuns_iff_overlay_failed_or_hung (envO envB : ExecEnv) (rp ar p : String) :
    (runUnit envO envB rp ar p).baselineRuns ≤ 1 ∧
    ((runUnit envO envB rp ar p).baselineRuns = 1 ↔
      (testPackage envO rp ar p true).1 = .failed ∨ (testPackage envO rp ar p true).1 = .hungT) := by
  cases h : (testPackage envO rp ar p true).1 <;>
    cases hb : (testPackage envB rp ar p false).1 <;>
      simp [runUnit, mkResult, h, hb]

/-- C3: a unit whose with-repo result hung is classified Hung regardless
of the without-repo result, and when the without-repo result also hung
two hung-test entries are recorded (one per mode), otherwise one. -/
theorem overlay_hung_verdict (s : AnalyzeState) (p : String) (wo : Option TestResult) :
    classifyUnit (some (mkResult p true .hungT)) wo = .hungOverlay (baselineHung wo) ∧
    (processUnit s p (some (mkResult p true .hungT)) wo).hungTests =
      s.hungTests ++ [(p, true)] ++ (if baselineHung wo then [(p, false)] else []) := by
  have h1 : classifyUnit (some (mkResult p true .hungT)) wo = .hungOverlay (baselineHung wo) := rfl
  refine ⟨h1, ?_⟩
  rw [processUnit_hungTests, h1]
  simp [hungEntries, List.append_assoc]

/-- C4: `analyzeResults` returns a non-nil error iff some unit was
classified as a regression or contributed a hung event; with regressions
present the error is the found-N-regressions one (taking precedence over
hangs), otherwise with hung tests present the found-N-hung-tests one,
otherwise nil. -/
theorem analyzeResults_error_signal (us : List GroupedUnit) :
    (analyzeResults us ≠ none ↔
      ∃ u ∈ us, isRegression (classifyUnit u.2.1 u.2.2) = true ∨
                isHungClass (classifyUnit u.2.1 u.2.2) = true) ∧
    ((analyzeUnits us).regressions ≠ [] →
      analyzeResults us =
        some ("found " ++ toString (analyzeUnits us).regressions.length ++ " regressions")) ∧
    ((analyzeUnits us).regressions = [] → (analyzeUnits us).hungTests ≠ [] →
      analyzeResults us =
        some ("found " ++ toString (analyzeUnits us).hungTests.length ++ " hung tests")) ∧
    ((analyzeUnits us).regressions = [] → (analyzeUnits us).hungTests = [] →
      analyzeResults us = none) := by
  have hreg : (analyzeUnits us).regressions = regList us := by
    rw [analyzeUnits, analyzeFrom_regressions]; simp [initState]
  have hhung : (analyzeUnits us).hungTests = hungList us := by
    rw [analyzeUnits, analyzeFrom_hungTests]; simp [initState]
  refine ⟨⟨?_, ?_⟩, ?_, ?_, ?_⟩
  · intro hne
    by_cases h1 : 0 < (analyzeUnits us).regressions.length
    · have : regList us ≠ [] := by
        rw [← hreg]; exact List.ne_nil_of_length_pos h1
      rcases (regList_ne_nil us).mp this with ⟨u, hu, hp⟩
      exact ⟨u, hu, Or.inl hp⟩
    · by_cases h2 : 0 < (analyzeUnits us).hungTests.length
      · have : hungList us ≠ [] := by
          rw [← hhung]; exact List.ne_nil_of_length_pos h2
        rcases (hungList_ne_nil us).mp this with ⟨u, hu, hq⟩
        exact ⟨u, hu, Or.inr hq⟩
      · exact absurd (by rw [analyzeResults, analyzeError]; simp [h1, h2]) hne
  · rintro ⟨u, hu, hp | hq⟩
    · have hne : regList us ≠ [] := (regList_ne_nil us).mpr ⟨u, hu, hp⟩
      have hlen : 0 < (analyzeUnits us).regressions.length := by
        rw [hreg]; exact List.length_pos.mpr hne
      rw [analyzeResults, analyzeError]
      simp [hlen]
    · rw [analyzeResults, analyzeError]
      by_cases h1 : 0 < (analyzeUnits us).regressions.length
      · simp [h1]
      · have hne : hungList us ≠ [] := (hungList_ne_nil us).mpr ⟨u, hu, hq⟩
        have hlen : 0 < (analyzeUnits us).hungTests.length := by
          rw [hhung]; exact List.length_pos.mpr hne
        simp [h1, hlen]
  · intro h
    have hlen : 0 < (analyzeUnits us).regressions.length := List.length_pos.mpr h
    rw [analyzeResults, analyzeError]
    simp [hlen]
  · intro h1 h2
    have hlen : 0 < (analyzeUnits us).hungTests.length := List.length_pos.mpr h2
    rw [analyzeResults, analyzeError]
    simp [h1, hlen]
  · intro h1 h2
    rw [analyzeResults, analyzeError]
    simp [h1, h2]

theorem analyzeResults_error_signal_witness :
    analyzeResults [("a", some (mkResult "a" true .failed), some (mkResult "a" false .ok))] =
      some ("found " ++
        toString (analyzeUnits
          [("a", some (mkResult "a" true .failed), some (mkResult "a" false .ok))]).regressions.length
        ++ " regressions") :=
  (analyzeResults_error_signal
    [("a", some (mkResult "a" true .failed), some (mkResult "a" false .ok))]).2.1 (by decide)

/-- C5: when the package YAML does not exist, `TestPackage` returns
`ErrPackageYAMLNotFound` with no process spawned, no temporary directory
allocated and no log file created, and the scheduler then runs no
baseline trial for the unit. -/
theorem yaml_missing_skips (env envB : ExecEnv) (rp ar p : String) (withRepo : Bool)
    (h : env.yamlExists = false) :
    testPackage env rp ar p withRepo = (.yamlNotFound, noEffects) ∧
    (testPackage env rp ar p withRepo).2.spawnAttempted = false ∧
    (testPackage env rp ar p withRepo).2.tempDirCreated = false ∧
    (testPackage env rp ar p withRepo).2.logCreated = false ∧
    (runUnit env envB rp ar p).baselineRuns = 0 := by
  have ht : testPackage env rp ar p withRepo = (.yamlNotFound, noEffects) := by
    simp [testPackage, h]
  have ht1 : testPackage env rp ar p true = (.yamlNotFound, noEffects) := by
    simp [testPackage, h]
  refine ⟨ht, by rw [ht]; rfl, by rw [ht]; rfl, by rw [ht]; rfl, ?_⟩
  simp [runUnit, ht1, mkResult]

theorem yaml_missing_skips_witness :
    testPackage ⟨false, true, "", true, true, true, true⟩ "r" "a" "p" true =
      (.yamlNotFound, noEffects) ∧
    (runUnit ⟨false, true, "", true, true, true, true⟩
      ⟨false, true, "", true, true, true, true⟩ "r" "a" "p").baselineRuns = 0 :=
  ⟨(yaml_missing_skips ⟨false, true, "", true, true, true, true⟩
      ⟨false, true, "", true, true, true, true⟩ "r" "a" "p" true rfl).1,
   (yaml_missing_skips ⟨false, true, "", true, true, true, true⟩
      ⟨false, true, "", true, true, true, true⟩ "r" "a" "p" true rfl).2.2.2.2⟩

/-- C6: when the timer fires before the process exits, `TestPackage`
kills the process, drains the previously-started wait, appends the
killed-after-timeout marker to the still-open log, closes the log,
removes the temp directory and returns the Hung outcome; the hung trial
is invoked exactly once (never retried) and is the first emitted result
of its unit. -/
theorem timeout_hung_effects (env envB : ExecEnv) (rp ar p : String) (withRepo : Bool)
    (hy : env.yamlExists = true) (hm : env.mkTempOk = true) (hc : env.createLogOk = true)
    (hs : env.startOk = true) (he : env.exitsInTime = false) :
    (testPackage env rp ar p withRepo).1 = .hungT ∧
    (testPackage env rp ar p withRepo).2.processKilled = true ∧
    (testPackage env rp ar p withRepo).2.waitDrained = true ∧
    (testPackage env rp ar p withRepo).2.timeoutMarkerWritten = true ∧
    (testPackage env rp ar p withRepo).2.logClosed = true ∧
    (testPackage env rp ar p withRepo).2.tempDirRemoved = true ∧
    (runUnit env envB rp ar p).overlayRuns = 1 ∧
    (runUnit env envB rp ar p).emitted.head? = some (mkResult p true .hungT) := by
  have ht : (testPackage env rp ar p withRepo).1 = .hungT ∧
      (testPackage env rp ar p withRepo).2.processKilled = true ∧
      (testPackage env rp ar p withRepo).2.waitDrained = true ∧
      (testPackage env rp ar p withRepo).2.timeoutMarkerWritten = true ∧
      (testPackage env rp ar p withRepo).2.logClosed = true ∧
      (testPackage env rp ar p withRepo).2.tempDirRemoved = true := by
    simp [testPackage, hy, hm, hc, hs, he]
  have ht1 : (testPackage env rp ar p true).1 = .hungT := by
    simp [testPackage, hy, hm, hc, hs, he]
  refine ⟨ht.1, ht.2.1, ht.2.2.1, ht.2.2.2.1, ht.2.2.2.2.1, ht.2.2.2.2.2, ?_, ?_⟩ <;>
    cases hb : (testPackage envB rp ar p false).1 <;>
      simp [runUnit, ht1, hb, mkResult]

theorem timeout_hung_effects_witness :
    (testPackage ⟨true, true, "/t", true, true, false, false⟩ "r" "a" "p" true).1 = .hungT ∧
    (testPackage ⟨true, true, "/t", true, true, false, false⟩ "r" "a" "p" true).2.processKilled = true :=
  ⟨(timeout_hung_effects ⟨true, true, "/t", true, true, false, false⟩
      ⟨true, true, "/t", true, true, false, false⟩ "r" "a" "p" true rfl rfl rfl rfl rfl).1,
   (timeout_hung_effects ⟨true, true, "/t", true, true, false, false⟩
      ⟨true, true, "/t", true, true, false, false⟩ "r" "a" "p" true rfl rfl rfl rfl rfl).2.1⟩

/-- C7 (counterexample): two concurrent `updateProgress` calls with
`totalTests = 1` can both load `completedTests = 0`, both pass the
guard, and both increment, leaving the completed count at 2 > 1; the
claimed bound fails under this interleaving. -/
theorem progress_interleaving_overshoot :
    (runProgress 1 [0, 1, 0, 1] { completed := 0, threads := [.toRead, .toRead] }).completed = 2 ∧
    ¬ ((runProgress 1 [0, 1, 0, 1]
        { completed := 0, threads := [.toRead, .toRead] }).completed ≤ 1) := by
  decide

/-- C7 (amended): when `updateProgress` calls execute without
interleaving between the load and the increment, the completed count
never exceeds the total: any number of atomic
load-guard-increment steps keeps the count bounded by the total. -/
theorem progress_sequential_bound (total n c : Nat) (h : c ≤ total) :
    (updateProgress total)^[n] c ≤ total := by
  induction n generalizing c with
  | zero => simpa using h
  | succ n ih =>
      rw [Function.iterate_succ_apply]
      apply ih
      unfold updateProgress
      split
      · exact h
      · omega

theorem progress_sequential_bound_witness : (updateProgress 3)^[5] 0 ≤ 3 :=
  progress_sequential_bound 3 5 0 (by decide)

/-- C8: for the same package, the with-repo and without-repo invocations
differ only in the overlay parameter: same program, same make target,
same working directory; the with-repo environment is exactly the
without-repo environment with the `MELANGE_EXTRA_OPTS` repository-append
entry prepended, and the without-repo environment sets only `TMPDIR`. -/
theorem cmd_modes_differ_only_in_overlay (rp td ar p : String) :
    (buildCmd rp td ar true p).prog = (buildCmd rp td ar false p).prog ∧
    (buildCmd rp td ar true p).target = (buildCmd rp td ar false p).target ∧
    (buildCmd rp td ar true p).dir = (buildCmd rp td ar false p).dir ∧
    (buildCmd rp td ar true p).extraEnv =
      ("MELANGE_EXTRA_OPTS=" ++ melangeExtraOpts ar) :: (buildCmd rp td ar false p).extraEnv ∧
    (buildCmd rp td ar false p).extraEnv = ["TMPDIR=" ++ td] :=
  ⟨rfl, rfl, rfl, rfl, rfl⟩

/-- C9 (counterexample): a unit whose with-repo result is a success and
whose without-repo result hung does match a branch — the without-repo
hang check — so it is appended to the hung list, contradicting the claim
that such units join none of the five lists. -/
theorem success_with_hung_baseline_classified :
    processUnit initState "a" (some (mkResult "a" true .ok))
      (some (mkResult "a" false .hungT)) ≠ initState ∧
    (processUnit initState "a" (some (mkResult "a" true .ok))
      (some (mkResult "a" false .hungT))).hungTests = [("a", false)] := by
  decide

/-- C9 (amended): a unit whose with-repo result is a success and whose
without-repo result is present but did not hang matches none of the
classification branches: it joins no list, bumps no counter, and leaves
the analysis state unchanged. -/
theorem success_with_baseline_unclassified (s : AnalyzeState) (p : String) (oc : TrialOutcome)
    (h : oc ≠ .hungT) :
    classifyUnit (some (mkResult p true .ok)) (some (mkResult p false oc)) = .unclassified ∧
    processUnit s p (some (mkResult p true .ok)) (some (mkResult p false oc)) = s := by
  cases oc
  · exact ⟨rfl, rfl⟩
  · exact ⟨rfl, rfl⟩
  · exact absurd rfl h
  · exact ⟨rfl, rfl⟩

theorem success_with_baseline_unclassified_witness :
    processUnit initState "a" (some (mkResult "a" true .ok))
      (some (mkResult "a" false .ok)) = initState :=
  (success_with_baseline_unclassified initState "a" .ok (by decide)).2

/-- C10: `GetReverseDependencies` returns a duplicate-free,
ascending-sorted list of origins, and an origin is listed iff it is
non-empty and some parsed package with that origin has a dependency
string containing the queried name as a substring. -/
theorem getReverseDependencies_sorted_nodup_mem (packageName : String) (packages : List Package) :
    (getReverseDependencies packageName packages).Sorted strLe ∧
    (getReverseDependencies packageName packages).Nodup ∧
    ∀ x, x ∈ getReverseDependencies packageName packages ↔
      x ≠ "" ∧ ∃ p ∈ packages, p.origin = x ∧
        ∃ deps, p.dependencies = some deps ∧ ∃ d ∈ deps, containsStr d packageName = true := by
  have hperm := List.perm_insertionSort strLe (collectOrigins packageName [] packages)
  refine ⟨List.sorted_insertionSort strLe _, ?_, ?_⟩
  · exact hperm.nodup_iff.mpr (nodup_collectOrigins List.nodup_nil)
  · intro x
    rw [getReverseDependencies, hperm.mem_iff, mem_collectOrigins]
    simp only [List.not_mem_nil, false_or]
    constructor
    · rintro ⟨p, hp, horig, hne, rest⟩
      exact ⟨hne, p, hp, horig, rest⟩
    · rintro ⟨hne, p, hp, horig, rest⟩
      exact ⟨p, hp, horig, hne, rest⟩

end Apkregress
